import Mathlib

/-!
Verification of the observable entity store (Backbone 0.1.0, src/backbone.js):
a shallow embedding of `Backbone.Events` (EventHub), `Backbone.Model` (Entity)
and `Backbone.Collection`, with theorems settling the frozen claims about the
specification.

Conventions of the embedding:
* JS attribute values are modeled by the flat inductive `Val` (null, string,
  integer).  Nested objects/arrays and float values are not exercised by any
  claim.  A JS `undefined` (absent property) is `Option.none` at use sites.
* JS objects used as dictionaries (`_attributes`, `_byId`, `_byCid`,
  `_callbacks`) are association lists with lookup/replace/delete helpers.
* Entities are identified by their `cid` (a `Nat`): JS reference identity.
  A `World` carries the heap (`store`, mapping cid to entity state) together
  with one collection, mirroring that collection indices hold references.
* Event publication is synchronous; callbacks are recorded in traces.  Each
  model-level trace entry carries the model state at the instant the event
  fired, which is exactly what a synchronous subscriber observes (the only
  in-collection subscriber, `_onModelEvent`, never mutates the model, so the
  model evolves independently of handler execution).
-/

namespace BB

/-- Scalar JS values stored in attributes: `null`, strings and integers. -/
inductive Val where
  | vnull
  | vstr (s : String)
  | vnum (n : Int)
deriving DecidableEq, Repr

/-- Association-list lookup (first binding wins), the JS `obj[k]` read:
`none` is JS `undefined`. -/
def alook {κ α : Type} [DecidableEq κ] : List (κ × α) → κ → Option α
  | [], _ => none
  | p :: t, k => if p.1 = k then some p.2 else alook t k

/-- Association-list write, the JS `obj[k] = v` assignment: replaces the
binding if the key is present (JS objects have unique keys), else appends. -/
def aset {κ α : Type} [DecidableEq κ] : List (κ × α) → κ → α → List (κ × α)
  | [], k, v => [(k, v)]
  | p :: t, k, v => if p.1 = k then (k, v) :: t else p :: aset t k v

/-- Association-list delete, the JS `delete obj[k]` statement. -/
def aerase {κ α : Type} [DecidableEq κ] (l : List (κ × α)) (k : κ) : List (κ × α) :=
  l.filter (fun p => !decide (p.1 = k))

/-- An attribute map: a JS object from attribute name to value. -/
abbrev Attrs := List (String × Val)

/-- The underscore `_.isEqual` test restricted to our scalar values: it is
`a === b` after a `typeof` check, so `null` and `undefined` are NOT equal and
a string never coerces to a number.  On `Option Val` this coincides with
decidable equality. -/
def isEqual (a b : Option Val) : Bool := a == b

/-- The integer a string coerces to under the loose JS `==` (the empty
string is 0; only integer literals are modeled, which is all any claim
touches). -/
def strToNum (s : String) : Option Int :=
  if s = "" then some 0 else s.toInt?

/-- Loose JS equality `==` on id-slot values; `undefined` and `null` are
mutually equal, and a string compares to a number via numeric coercion. -/
def looseEq : Option Val → Option Val → Bool
  | none, none => true
  | none, some Val.vnull => true
  | some Val.vnull, none => true
  | some Val.vnull, some Val.vnull => true
  | some (Val.vstr a), some (Val.vstr b) => a == b
  | some (Val.vnum a), some (Val.vnum b) => a == b
  | some (Val.vstr a), some (Val.vnum b) => strToNum a == some b
  | some (Val.vnum a), some (Val.vstr b) => strToNum b == some a
  | _, _ => false

/-- Property-key stringification `String(v)` of an id slot. -/
def jsStr : Option Val → String
  | none => "undefined"
  | some Val.vnull => "null"
  | some (Val.vstr s) => s
  | some (Val.vnum n) => toString n

/-- Truthiness of a JS value (`null`, the empty string and 0 are falsy). -/
def truthyV : Val → Bool
  | Val.vnull => false
  | Val.vstr s => !(s == "")
  | Val.vnum n => !(n == 0)

/-- Extensional deep equality of two attribute maps: what `_.isEqual`
computes on two plain objects (same keys, pointwise-equal values). -/
def attrsEq (a b : Attrs) : Bool :=
  (a.map Prod.fst ++ b.map Prod.fst).all (fun k => alook a k == alook b k)

/-- State of a `Backbone.Model`.  `cid` is the client id (JS reference
identity), `id` the `this.id` field (`none` while unset, JS `undefined`),
`attributes` is `_attributes`, `previousAttributes` is
`_previousAttributes`, `changed` is `_changed`, `validate` the optional
caller-supplied hook.  `collection` and `boundAll` record the
owning-collection back-reference and the number of wildcard (`all`)
registrations of a collection re-broadcast handler, which JS keeps on
`model.collection` and in the model `_callbacks` registry. -/
structure Model where
  cid : Nat
  id : Option Val := none
  attributes : Attrs := []
  previousAttributes : Attrs := []
  changed : Bool := false
  validate : Option (Attrs → Option Val) := none
  collection : Bool := false
  boundAll : Nat := 0

/-- Model-level events, as fired by `trigger`: `change:<name>` with the new
value, `change`, and `error` with the payload. -/
inductive MEv where
  | changeAttr (name : String) (val : Option Val)
  | change
  | error (e : Val)
deriving DecidableEq, Repr

/-- A model event trace: each entry records the event and the full model
state at the instant `trigger` ran, i.e. what every subscriber observes. -/
abbrev MTrace := List (MEv × Model)

/-- Embedding of `Model.prototype.change`: `trigger` a `change` event, then
advance `_previousAttributes` to a copy of `_attributes` and clear
`_changed`.  Subscribers run against the pre-advance state recorded in the
trace. -/
def Model.changeNow (m : Model) : Model × MTrace :=
  ({ m with previousAttributes := m.attributes, changed := false }, [(MEv.change, m)])

/-- Embedding of the `for (attr in attrs)` loop of `Model.prototype.set`:
normalize the empty string to `null`, diff with `_.isEqual`, store, and
unless silent set `_changed` and fire `change:<attr>` (with `this` in its
post-write state). -/
def Model.setLoop (m : Model) (silent : Bool) : List (String × Val) → Model × MTrace
  | [] => (m, [])
  | (k, v) :: rest =>
    let v' := if v = Val.vstr "" then Val.vnull else v
    if isEqual (alook m.attributes k) (some v') then
      Model.setLoop m silent rest
    else
      let m1 := { m with attributes := aset m.attributes k v' }
      if silent then
        Model.setLoop m1 silent rest
      else
        let m2 := { m1 with changed := true }
        let r := Model.setLoop m2 silent rest
        (r.1, (MEv.changeAttr k (some v'), m2) :: r.2)

/-- Embedding of the id check of `Model.prototype.set`: when the patch has
an `id` key, assign the raw (un-normalized) value to `this.id`. -/
def Model.setId (m : Model) (patch : Attrs) : Model :=
  match alook patch "id" with
  | some v => { m with id := some v }
  | none => m

/-- Embedding of `Model.prototype.set` after the validation gate: the id
check, then the update loop, then fire `change` (the commit) unless silent
or nothing changed.  The `Bool` is the JS return (`this` = true, `false` =
validation failure). -/
def Model.setCore (m : Model) (patch : Attrs) (silent : Bool) : Model × MTrace × Bool :=
  let r := Model.setLoop (Model.setId m patch) silent patch
  if !silent && r.1.changed then
    let rc := Model.changeNow r.1
    (rc.1, r.2 ++ rc.2, true)
  else (r.1, r.2, true)

/-- Embedding of `Model.prototype.set(attrs, options)`: run the validation
hook on the raw patch first; a non-null error fires exactly one `error`
event and returns `false` with nothing applied.  (The embedding takes the
patch as an attribute map directly: the null check and the `_attributes`
unwrapping of the source only select that map.) -/
def Model.setM (m : Model) (patch : Attrs) (silent : Bool) : Model × MTrace × Bool :=
  match m.validate with
  | some f =>
    match f patch with
    | some err => (m, [(MEv.error err, m)], false)
    | none => Model.setCore m patch silent
  | none => Model.setCore m patch silent

/-- Embedding of `Model.prototype.unset(attr, options)`: read the old value,
`delete` the attribute, and unless silent set `_changed`, fire
`change:<attr>` (with no value argument) and run the `change` commit.  There
is no presence guard. -/
def Model.unsetM (m : Model) (attr : String) (silent : Bool) : Model × MTrace × Option Val :=
  let value := alook m.attributes attr
  let m1 := { m with attributes := aerase m.attributes attr }
  if silent then (m1, [], value)
  else
    let m2 := { m1 with changed := true }
    let rc := Model.changeNow m2
    (rc.1, (MEv.changeAttr attr none, m2) :: rc.2, value)

/-- Embedding of `Model.prototype.hasChanged(attr)` with an attribute name:
loose inequality (`!=`) between the previous and current attribute values. -/
def Model.hasChangedAttr (m : Model) (attr : String) : Bool :=
  !looseEq (alook m.previousAttributes attr) (alook m.attributes attr)

/-- Embedding of `Model.prototype.hasChanged()` without argument: `_changed`. -/
def Model.hasChangedAny (m : Model) : Bool := m.changed

/-- Embedding of `Model.prototype.previous(attr)`: `null` for a falsy name,
else the value recorded in `_previousAttributes`. -/
def Model.previousVal (m : Model) (attr : String) : Option Val :=
  if attr = "" then some Val.vnull else alook m.previousAttributes attr

/-- Embedding of the constructor `new Backbone.Model(attributes)`: empty
attributes, fresh cid, apply the initial attributes through `set` with the
silent option (a validation failure is ignored by the constructor), then
snapshot `_previousAttributes`. -/
def Model.make (cid : Nat) (initAttrs : Attrs) (vf : Option (Attrs → Option Val)) : Model :=
  let base : Model := { cid := cid, validate := vf }
  let m1 := (Model.setM base initAttrs true).1
  { m1 with previousAttributes := m1.attributes }

/-- A committed model: dirty flag clear and the snapshot literally equal to
the current attributes (the state the `change` commit leaves behind). -/
def Model.committed (m : Model) : Prop :=
  m.changed = false ∧ m.previousAttributes = m.attributes

/-- Mutation alphabet of claim C1: non-silent writes, removes, commits. -/
inductive MOp where
  | write (p : Attrs)
  | removeAttr (n : String)
  | commit

/-- Run one non-silent entity mutation, keeping only the state. -/
def Model.runOp (m : Model) (op : MOp) : Model :=
  match op with
  | MOp.write p => (Model.setM m p false).1
  | MOp.removeAttr n => (Model.unsetM m n false).1
  | MOp.commit => (Model.changeNow m).1

/-- Run a sequence of non-silent entity mutations. -/
def Model.runOps (m : Model) (ops : List MOp) : Model :=
  ops.foldl Model.runOp m

/-!
### EventHub (`Backbone.Events`) with re-entrant handlers, for claim C6

Callbacks are data: an id (function identity) plus the registry mutation the
handler performs when invoked.  `bind` pushes onto the live per-event array;
`unbind(ev, cb)` splices out the first registration with the same identity;
handlers invoked during `trigger` mutate the same live array in place.
-/

/-- Behavior of a callback when invoked: nothing, an unbind call
`this.unbind(ev, cbWithIdentityTarget)`, or a bind call of a fresh no-op
callback. -/
inductive HAct where
  | noop
  | unbindAct (ev : String) (target : Nat)
  | bindAct (ev : String) (fresh : Nat)
deriving DecidableEq, Repr

/-- A registered callback: function identity plus its behavior. -/
structure Handler where
  hid : Nat
  act : HAct
deriving DecidableEq, Repr

/-- The `_callbacks` registry: event name to live callback array. -/
abbrev Callbacks := List (String × List Handler)

/-- Embedding of `Events.bind(ev, callback)`: push onto the (created) list. -/
def bindCb (cs : Callbacks) (ev : String) (h : Handler) : Callbacks :=
  match alook cs ev with
  | some l => aset cs ev (l ++ [h])
  | none => aset cs ev [h]

/-- The splice of `Events.unbind(ev, callback)`: remove the first
registration whose callback is `===` the argument, then break. -/
def removeFirst : List Handler → Nat → List Handler
  | [], _ => []
  | h :: t, x => if h.hid = x then t else h :: removeFirst t x

/-- Embedding of `Events.unbind(ev, callback)` with both arguments given
(the only mode a handler in claim C6 uses): a missing list is a no-op, else
splice in place. -/
def unbindCb (cs : Callbacks) (ev : String) (target : Nat) : Callbacks :=
  match alook cs ev with
  | some l => aset cs ev (removeFirst l target)
  | none => cs

/-- Invoke one callback: apply its registry mutation. -/
def applyAct (cs : Callbacks) (h : Handler) : Callbacks :=
  match h.act with
  | HAct.noop => cs
  | HAct.unbindAct ev t => unbindCb cs ev t
  | HAct.bindAct ev n => bindCb cs ev (Handler.mk n HAct.noop)

/-- Embedding of the loop `for (i = 0, l = list.length; i < l; i++)
list[i].apply(...)` of `Events.trigger`: the first `Nat` argument is the
remaining iteration count `l - i` (the length `l` was cached once, so the
loop runs at most that often), while `list` is the live array that in-flight
unbind splices mutate, re-read on every step.  Reading past the end of the
shortened array applies `undefined`, a TypeError: the `Bool` crash flag.
The `List Nat` accumulates invoked callback identities in order. -/
def triggerLoop (ev : String) : Nat → Nat → Callbacks → List Nat → Callbacks × List Nat × Bool
  | 0, _, cs, log => (cs, log, false)
  | fuel + 1, i, cs, log =>
    match ((alook cs ev).getD [])[i]? with
    | some hd => triggerLoop ev fuel (i + 1) (applyAct cs hd) (log ++ [hd.hid])
    | none => (cs, log, true)

/-- Embedding of `Events.trigger(ev)`: run the `ev` list, then the wildcard
list, caching each length at its loop entry; a TypeError aborts the call. -/
def triggerCb (cs : Callbacks) (ev : String) : Callbacks × List Nat × Bool :=
  let l1 := ((alook cs ev).getD []).length
  let r1 := triggerLoop ev l1 0 cs []
  if r1.2.2 then r1
  else
    let l2 := ((alook r1.1 "all").getD []).length
    let r2 := triggerLoop "all" l2 0 r1.1 []
    (r2.1, r1.2.1 ++ r2.2.1, r2.2.2)

/-!
### `Backbone.Collection`

The collection holds the member sequence (`models`, a list of cids in
order), the two indices, the `length` field and the optional comparator.  In
Backbone 0.1.0 the comparator is a sort-KEY function (an iterator for
`sortedIndex` and `sortBy`), not a two-argument comparison; comparators read
model attributes (one reading the library bookkeeping fields is out of
scope). -/

/-- Collection-level events re-published to the collection subscribers. -/
inductive CEvent where
  | add (cid : Nat)
  | remove (cid : Nat)
  | change (cid : Nat)
  | error (cid : Nat) (e : Val)
  | refresh
deriving DecidableEq, Repr

/-- State of a `Backbone.Collection` as `_initialize` creates it
(`_initialize` resets `length`, `models`, `_byId`, `_byCid` but not the
comparator). -/
structure Collection where
  length : Nat := 0
  models : List Nat := []
  byId : List (String × Nat) := []
  byCid : List (Nat × Nat) := []
  comparator : Option (Attrs → Int) := none

/-- The heap: entity states by cid, plus one collection. -/
structure World where
  store : List (Nat × Model)
  coll : Collection

/-- Hard failures: the duplicate throw of `_add` and the missing-comparator
throw of `sort`. -/
inductive CollErr where
  | dupAdd
  | noComparator
deriving DecidableEq, Repr

/-- An argument to the collection `get` and `_remove`: an entity object, or
a raw id value. -/
inductive Ref where
  | byModel (cid : Nat)
  | byVal (v : Val)

/-- Embedding of `Collection.prototype.get(id)`, i.e. the expression
`id && this._byId[id.id != null ? id.id : id]`: for an entity the probe key
is its `id` when loosely non-null, else the entity `toString` rendering
(`Model <id>`); a raw value is its own key, and a falsy raw value
short-circuits to a miss. -/
def World.getRef (w : World) (r : Ref) : Option Nat :=
  match r with
  | Ref.byVal v => if truthyV v then alook w.coll.byId (jsStr (some v)) else none
  | Ref.byModel cid =>
    match alook w.store cid with
    | none => none
    | some m =>
      let key := if looseEq m.id (some Val.vnull) then "Model " ++ jsStr m.id else jsStr m.id
      alook w.coll.byId key

/-- The comparator key of a member reference (`comparator(model)`). -/
def World.keyOf (w : World) (cmp : Attrs → Int) (c : Nat) : Int :=
  match alook w.store c with
  | some m => cmp m.attributes
  | none => 0

/-- The comparator keys of the member sequence, in order. -/
def World.keys (w : World) (cmp : Attrs → Int) : List Int :=
  w.coll.models.map (w.keyOf cmp)

/-- Embedding of the `_.sortedIndex` binary search over the key sequence:
window `[low, high)`, midpoint `(low + high) >> 1`, strict probe
`key(array[mid]) < key(obj)` -- computing the LEFTMOST insertion point.  The
first `Nat` is a structural bound on the iteration count (the source loop
terminates because the window shrinks; any fuel at least `high - low`
computes the loop result). -/
def sIndexAux (ks : List Int) (k : Int) : Nat → Nat → Nat → Nat
  | 0, low, _ => low
  | fuel + 1, low, high =>
    if low < high then
      let mid := (low + high) / 2
      if ks.getD mid 0 < k then sIndexAux ks k fuel (mid + 1) high
      else sIndexAux ks k fuel low mid
    else low

/-- Embedding of `_.sortedIndex(array, obj, iterator)` over the keys. -/
def sIndex (ks : List Int) (k : Int) : Nat :=
  sIndexAux ks k ks.length 0 ks.length

/-- Embedding of `Collection.prototype._add(model, options)`: duplicate
probe via `get` (a hit throws, before any mutation), then register in
`_byId` under `String(model.id)` and in `_byCid`, set the back-reference,
splice into the sorted position (or append at `length` without a
comparator), bind the wildcard re-broadcast handler, bump `length`, and fire
`add` unless silent.  The heap entry for `model.cid` is the passed object
itself. -/
def World.addOne (w : World) (m : Model) (silent : Bool) :
    Except CollErr (World × List CEvent) :=
  let w0 : World := { w with store := aset w.store m.cid m }
  match World.getRef w0 (Ref.byModel m.cid) with
  | some _ => Except.error CollErr.dupAdd
  | none =>
    let m1 := { m with collection := true }
    let w1 : World :=
      { store := aset w0.store m.cid m1,
        coll := { w0.coll with
                   byId := aset w0.coll.byId (jsStr m.id) m.cid,
                   byCid := aset w0.coll.byCid m.cid m.cid } }
    let index := match w1.coll.comparator with
      | some cmp => sIndex (w1.coll.models.map (w1.keyOf cmp)) (cmp m1.attributes)
      | none => w1.coll.length
    let m2 := { m1 with boundAll := m1.boundAll + 1 }
    let w2 : World :=
      { store := aset w1.store m.cid m2,
        coll := { w1.coll with
                   models := w1.coll.models.insertIdx index m.cid,
                   length := w1.coll.length + 1 } }
    Except.ok (w2, if silent then [] else [CEvent.add m.cid])

/-- Embedding of `Collection.prototype._remove(model, options)`: resolve
through `get` (a null resolution is a silent no-op returning null), then
delete both index entries, clear the back-reference, run
`splice(indexOf(model), 1)` on the sequence (JS `indexOf` returns -1 on a
miss, making `splice` drop the LAST element), unbind one wildcard
registration, decrement `length`, and fire `remove` unless silent.  The
final component is the resolved cid (the JS return value). -/
def World.removeOne (w : World) (r : Ref) (silent : Bool) :
    World × List CEvent × Option Nat :=
  match World.getRef w r with
  | none => (w, [], none)
  | some cid =>
    match alook w.store cid with
    | none => (w, [], none)
    | some m =>
      let models := match w.coll.models.findIdx? (fun c => c == cid) with
        | some i => w.coll.models.eraseIdx i
        | none => w.coll.models.dropLast
      let m1 := { m with collection := false, boundAll := m.boundAll - 1 }
      let w1 : World :=
        { store := aset w.store cid m1,
          coll := { w.coll with
                     byId := aerase w.coll.byId (jsStr m.id),
                     byCid := aerase w.coll.byCid cid,
                     models := models,
                     length := w.coll.length - 1 } }
      (w1, if silent then [] else [CEvent.remove cid], some cid)

/-- Embedding of `Collection.prototype.sort(options)`: throws without a
comparator, else re-sorts `models` by the comparator key (the underscore
`sortBy`, a stable sort by key, modeled by the stable `insertionSort`),
firing `refresh` unless silent. -/
def World.sortColl (w : World) (silent : Bool) : Except CollErr (World × List CEvent) :=
  match w.coll.comparator with
  | none => Except.error CollErr.noComparator
  | some cmp =>
    let models := List.insertionSort (fun a b => w.keyOf cmp a ≤ w.keyOf cmp b) w.coll.models
    Except.ok ({ w with coll := { w.coll with models := models } },
               if silent then [] else [CEvent.refresh])

/-- Embedding of `Collection.prototype._onModelEvent(ev, model, error)`: on
`change`, re-key `_byId` when `hasChanged(idAttr)` (drop the key
`String(previous(idAttr))`, map `String(model.id)` to the model), then
re-publish `change`; on `error`, re-publish `error`; per-attribute change
events are ignored.  `snap` is the model state at the instant the
entity-level event fired. -/
def Collection.onModelEvent (c : Collection) (ev : MEv) (snap : Model) :
    Collection × List CEvent :=
  match ev with
  | MEv.change =>
    let c1 := if Model.hasChangedAttr snap "id" then
        { c with byId := aset (aerase c.byId (jsStr (Model.previousVal snap "id")))
                              (jsStr snap.id) snap.cid }
      else c
    (c1, [CEvent.change snap.cid])
  | MEv.error e => (c, [CEvent.error snap.cid e])
  | MEv.changeAttr _ _ => (c, [])

/-- Invoke the re-broadcast handler once per wildcard registration
(`trigger` calls each registration in order). -/
def applyHandlerN : Nat → Collection → MEv → Model → Collection × List CEvent
  | 0, c, _, _ => (c, [])
  | n + 1, c, ev, snap =>
    let r1 := Collection.onModelEvent c ev snap
    let r2 := applyHandlerN n r1.1 ev snap
    (r2.1, r1.2 ++ r2.2)

/-- Feed an entity event trace through the wildcard subscription of the
collection: each `trigger` during the entity mutation runs the handler
synchronously against the collection state, in event order. -/
def foldTrace (c : Collection) (n : Nat) : MTrace → Collection × List CEvent
  | [] => (c, [])
  | (ev, snap) :: t =>
    let r1 := applyHandlerN n c ev snap
    let r2 := foldTrace r1.1 n t
    (r2.1, r1.2 ++ r2.2)

/-- A `model.set` on a heap entity, with every fired entity event
re-dispatched through the wildcard registrations of `_onModelEvent`.  The
handler never mutates the model, so the model evolves exactly as in
`Model.setM` while the collection folds over the trace. -/
def World.setModel (w : World) (cid : Nat) (p : Attrs) (silent : Bool) :
    World × List CEvent × Bool :=
  match alook w.store cid with
  | none => (w, [], false)
  | some m =>
    let r := Model.setM m p silent
    let rc := foldTrace w.coll m.boundAll r.2.1
    ({ store := aset w.store cid r.1, coll := rc.1 }, rc.2, r.2.2)

/-- Embedding of `Collection.prototype.add` over a list, as `refresh` uses
it: `_add` each in order; a duplicate throw aborts the batch, leaving the
earlier insertions applied (the exception propagates). -/
def World.addList (w : World) (L : List Model) (silent : Bool) :
    World × List CEvent × Option CollErr :=
  match L with
  | [] => (w, [], none)
  | m :: t =>
    match World.addOne w m silent with
    | Except.error e => (w, [], some e)
    | Except.ok r =>
      let rr := World.addList r.1 t silent
      (rr.1, r.2 ++ rr.2.1, rr.2.2)

/-- Embedding of `Collection.prototype.refresh(models, options)`:
`_initialize` (resetting `length`, `models`, `_byId`, `_byCid` -- the
comparator survives), re-add the new members with the silent option, fire
`refresh` unless silent.  Old members are neither unbound nor detached.
(The materialization of raw attribute maps through the model factory is the
identity here: the input is already a list of entities.) -/
def World.refresh (w : World) (L : List Model) (silent : Bool) :
    World × List CEvent × Option CollErr :=
  let w0 : World := { w with coll := { comparator := w.coll.comparator } }
  let r := World.addList w0 L true
  match r.2.2 with
  | some e => (r.1, [], some e)
  | none => (r.1, if silent then [] else [CEvent.refresh], none)

/-- Worlds reachable from an empty collection with a fixed comparator by any
sequence of `insertOne`, `removeOne` and `sort` calls -- the operation
alphabet of claim C4.  The side condition of the `add` rule says the passed
object is the heap object (JS reference semantics): its state is either not
yet on the heap or coincides with the heap entry. -/
inductive ReachC4 (cmp : Attrs → Int) : World → Prop
  | init : ReachC4 cmp { store := [], coll := { comparator := some cmp } }
  | step_add {w m s w' evs} : ReachC4 cmp w →
      (alook w.store m.cid = none ∨ alook w.store m.cid = some m) →
      World.addOne w m s = Except.ok (w', evs) → ReachC4 cmp w'
  | step_remove {w r s} : ReachC4 cmp w → ReachC4 cmp (World.removeOne w r s).1
  | step_sort {w s w' evs} : ReachC4 cmp w →
      World.sortColl w s = Except.ok (w', evs) → ReachC4 cmp w'

/-- Invariant for claim C4: the comparator is configured, every member
reference is live on the heap, and the member key sequence is sorted. -/
def C4Inv (cmp : Attrs → Int) (w : World) : Prop :=
  w.coll.comparator = some cmp ∧
  (∀ c ∈ w.coll.models, ∃ m, alook w.store c = some m) ∧
  List.Sorted (· ≤ ·) (w.keys cmp)

/-!
### Concrete inputs for the per-claim witnesses and counterexamples
-/

/-- Validation hook for claim C2: rejects an `age` of -1. -/
def vhookC2 : Attrs → Option Val :=
  fun a => if alook a "age" == some (Val.vnum (-1)) then some (Val.vstr "negative") else none

/-- Entity for claim C2, carrying the rejecting hook. -/
def mC2 : Model := { cid := 2, validate := some vhookC2 }

/-- Fresh entity for claim C5. -/
def mC5 : Model := { cid := 5 }

/-- Patch for claim C5. -/
def pC5 : Attrs := [("a", Val.vnum 1)]

/-- Model state observed by the commit subscribers in claim C5. -/
def m2C5 : Model := { cid := 5, attributes := [("a", Val.vnum 1)], changed := true }

/-- Trace entry of the `change` event in claim C5. -/
def eC5 : MEv × Model := (MEv.change, m2C5)

/-- Entity with one attribute for claim C9. -/
def mC9 : Model := { cid := 9, attributes := [("x", Val.vnum 2)] }

/-- Registry for claim C6: callback 1 unbinds itself from event `e` when
invoked, callback 2 does nothing. -/
def csC6 : Callbacks :=
  [("e", [Handler.mk 1 (HAct.unbindAct "e" 1), Handler.mk 2 HAct.noop])]

/-- Empty collection world for claim C3 (no comparator). -/
def wC3 : World := { store := [], coll := {} }

/-- Entity with absent primaryId for claim C3. -/
def eC3 : Model := { cid := 1 }

/-- State of that entity after one successful insert (claim C3). -/
def eC3b : Model := { cid := 1, collection := true, boundAll := 1 }

/-- World after inserting `eC3` once (claim C3). -/
def w1C3 : World :=
  { store := [(1, eC3b)],
    coll := { length := 1, models := [1], byId := [("undefined", 1)], byCid := [(1, 1)] } }

/-- World after inserting the same entity a second time (claim C3). -/
def w2C3 : World :=
  { store := [(1, { cid := 1, collection := true, boundAll := 2 })],
    coll := { length := 2, models := [1, 1], byId := [("undefined", 1)], byCid := [(1, 1)] } }

/-- Member entity already indexed under primaryId `42` (claim C3 witness). -/
def mC3mem : Model := { cid := 7, id := some (Val.vstr "42"), attributes := [("id", Val.vstr "42")] }

/-- World whose collection holds `mC3mem` (claim C3 witness). -/
def wC3w : World :=
  { store := [(7, mC3mem)],
    coll := { length := 1, models := [7], byId := [("42", 7)], byCid := [(7, 7)] } }

/-- Fresh entity sharing the primaryId `42` (claim C3 witness). -/
def mC3w : Model := { cid := 9, id := some (Val.vstr "42") }

/-- Comparator for claim C4 ranking every entity equally (a tie). -/
def cmpC4 : Attrs → Int := fun _ => 0

/-- Empty collection world with that comparator (claim C4). -/
def wC4 : World := { store := [], coll := { comparator := some cmpC4 } }

/-- First tied entity for claim C4. -/
def e1C4 : Model := { cid := 1 }

/-- Second tied entity for claim C4. -/
def e2C4 : Model := { cid := 2 }

/-- Member entity with absent primaryId for claim C7 (as `_add` leaves it). -/
def eC7 : Model := { cid := 1, collection := true, boundAll := 1 }

/-- World whose collection holds `eC7` under the key `undefined` (claim C7). -/
def wC7 : World :=
  { store := [(1, eC7)],
    coll := { length := 1, models := [1], byId := [("undefined", 1)], byCid := [(1, 1)] } }

/-- Member entity with primaryId `5` for the claim C8 witness. -/
def mC8 : Model :=
  { cid := 1, id := some (Val.vstr "5"), attributes := [("id", Val.vstr "5")],
    previousAttributes := [("id", Val.vstr "5")], collection := true, boundAll := 1 }

/-- World whose collection holds `mC8` (claim C8 witness). -/
def wC8 : World :=
  { store := [(1, mC8)],
    coll := { length := 1, models := [1], byId := [("5", 1)], byCid := [(1, 1)] } }

/-- Member entity with absent primaryId (claim C8 counterexample). -/
def eC8n : Model := { cid := 1, collection := true, boundAll := 1 }

/-- World whose collection holds `eC8n` (claim C8 counterexample). -/
def wC8n : World :=
  { store := [(1, eC8n)],
    coll := { length := 1, models := [1], byId := [("undefined", 1)], byCid := [(1, 1)] } }

/-- Validation hook for claim C10: rejects a `bad` of 1. -/
def vhookC10 : Attrs → Option Val :=
  fun a => if alook a "bad" == some (Val.vnum 1) then some (Val.vstr "rejected") else none

/-- Former member without a hook for claim C10. -/
def eC10 : Model := { cid := 1, collection := true, boundAll := 1 }

/-- Former member carrying the rejecting hook for claim C10. -/
def eC10v : Model := { cid := 3, collection := true, boundAll := 1, validate := some vhookC10 }

/-- World whose collection holds both former members (claim C10). -/
def wC10 : World :=
  { store := [(1, eC10), (3, eC10v)],
    coll := { length := 2, models := [1, 3], byId := [("undefined", 3)],
              byCid := [(1, 1), (3, 3)] } }

/-- Replacement list handed to `refresh` in claim C10. -/
def LC10 : List Model := [{ cid := 2 }]

/-!
## Theorems

General lemmas about the dictionary helpers and the model operations first,
then the per-claim theorems.
-/

theorem alook_aset_self {κ α : Type} [DecidableEq κ] (l : List (κ × α)) (k : κ) (v : α) :
    alook (aset l k v) k = some v := by
  induction l with
  | nil => simp [aset, alook]
  | cons p t ih => by_cases h : p.1 = k <;> simp [aset, h, alook, ih]

theorem alook_aset_ne {κ α : Type} [DecidableEq κ] (l : List (κ × α)) (k k' : κ) (v : α)
    (h : k' ≠ k) : alook (aset l k v) k' = alook l k' := by
  induction l with
  | nil => simp [aset, alook, Ne.symm h]
  | cons p t ih => by_cases hp : p.1 = k <;> simp [aset, hp, alook, Ne.symm h, ih]

theorem alook_aerase_self {κ α : Type} [DecidableEq κ] (l : List (κ × α)) (k : κ) :
    alook (aerase l k) k = none := by
  induction l with
  | nil => rfl
  | cons p t ih => by_cases h : p.1 = k <;> simp [aerase, List.filter_cons, h, alook, ih] <;>
      exact ih

theorem alook_aerase_ne {κ α : Type} [DecidableEq κ] (l : List (κ × α)) (k k' : κ)
    (h : k' ≠ k) : alook (aerase l k) k' = alook l k' := by
  induction l with
  | nil => rfl
  | cons p t ih =>
    by_cases hp : p.1 = k
    · have h2 : alook (p :: t) k' = alook t k' := by
        simp [alook, hp, Ne.symm h]
      rw [h2, ← ih]
      simp [aerase, List.filter_cons, hp]
    · by_cases hq : p.1 = k'
      · simp [aerase, List.filter_cons, hp, alook, hq, h]
      · simp only [aerase, List.filter_cons] at ih ⊢
        simp [hp, alook, hq, ih]

theorem attrsEq_refl (a : Attrs) : attrsEq a a = true := by
  simp [attrsEq, List.all_eq_true]

theorem aset_of_alook {κ α : Type} [DecidableEq κ] (l : List (κ × α)) (k : κ) (v : α)
    (h : alook l k = some v) : aset l k v = l := by
  induction l with
  | nil => simp [alook] at h
  | cons p t ih =>
    obtain ⟨pk, pv⟩ := p
    by_cases hp : pk = k
    · subst hp
      simp [alook] at h
      simp [aset, h]
    · simp [alook, hp] at h
      simp [aset, hp, ih h]

theorem setLoop_frame (m : Model) (s : Bool) (p : List (String × Val)) :
    (Model.setLoop m s p).1.previousAttributes = m.previousAttributes ∧
    (Model.setLoop m s p).1.id = m.id ∧
    (Model.setLoop m s p).1.cid = m.cid ∧
    (Model.setLoop m s p).1.validate = m.validate ∧
    (Model.setLoop m s p).1.boundAll = m.boundAll := by
  induction p generalizing m with
  | nil => exact ⟨rfl, rfl, rfl, rfl, rfl⟩
  | cons kv rest ih =>
    obtain ⟨k, v⟩ := kv
    simp only [Model.setLoop]
    repeat' split
    all_goals exact ih _

theorem setLoop_changed_silent (m : Model) (p : List (String × Val)) :
    (Model.setLoop m true p).1.changed = m.changed := by
  induction p generalizing m with
  | nil => rfl
  | cons kv rest ih =>
    obtain ⟨k, v⟩ := kv
    simp only [Model.setLoop]
    repeat' split
    all_goals first
      | exact ih _
      | (exfalso; simp_all)

theorem setLoop_changed_mono (m : Model) (s : Bool) (p : List (String × Val))
    (h : m.changed = true) : (Model.setLoop m s p).1.changed = true := by
  induction p generalizing m with
  | nil => exact h
  | cons kv rest ih =>
    obtain ⟨k, v⟩ := kv
    simp only [Model.setLoop]
    repeat' split
    all_goals first
      | exact ih _ h
      | exact ih _ rfl

theorem setLoop_nochange (m : Model) (p : List (String × Val))
    (h : (Model.setLoop m false p).1.changed = false) :
    (Model.setLoop m false p).1.attributes = m.attributes := by
  induction p generalizing m with
  | nil => rfl
  | cons kv rest ih =>
    obtain ⟨k, v⟩ := kv
    by_cases hc : isEqual (alook m.attributes k)
        (some (if v = Val.vstr "" then Val.vnull else v)) = true
    · have he : Model.setLoop m false ((k, v) :: rest) = Model.setLoop m false rest := by
        simp [Model.setLoop, hc]
      rw [he] at h ⊢
      exact ih m h
    · exfalso
      have hcf : isEqual (alook m.attributes k)
          (some (if v = Val.vstr "" then Val.vnull else v)) = false := by
        exact Bool.not_eq_true _ ▸ (Bool.eq_false_iff.mpr hc)
      have he : (Model.setLoop m false ((k, v) :: rest)).1 =
          (Model.setLoop { m with
              attributes := aset m.attributes k (if v = Val.vstr "" then Val.vnull else v),
              changed := true } false rest).1 := by
        simp [Model.setLoop, hcf]
      rw [he, setLoop_changed_mono _ false rest rfl] at h
      exact absurd h (by simp)

theorem changeNow_committed (m : Model) : (Model.changeNow m).1.committed :=
  ⟨rfl, rfl⟩

theorem setId_frame (m : Model) (p : Attrs) :
    (Model.setId m p).attributes = m.attributes ∧
    (Model.setId m p).previousAttributes = m.previousAttributes ∧
    (Model.setId m p).changed = m.changed ∧
    (Model.setId m p).cid = m.cid ∧
    (Model.setId m p).validate = m.validate ∧
    (Model.setId m p).boundAll = m.boundAll := by
  unfold Model.setId
  cases alook p "id" <;> exact ⟨rfl, rfl, rfl, rfl, rfl, rfl⟩

theorem setCore_committed (m : Model) (p : Attrs) (h : m.committed) :
    (Model.setCore m p false).1.committed := by
  unfold Model.setCore
  by_cases hc : (Model.setLoop (Model.setId m p) false p).1.changed = true
  · simp only [Bool.not_false, Bool.true_and, hc, if_true]
    exact changeNow_committed _
  · have hcf : (Model.setLoop (Model.setId m p) false p).1.changed = false :=
      Bool.eq_false_iff.mpr hc
    simp only [Bool.not_false, Bool.true_and, hcf, Bool.false_eq_true, if_false]
    refine ⟨hcf, ?_⟩
    rw [(setLoop_frame _ false p).1, setLoop_nochange _ p hcf,
        (setId_frame m p).1, (setId_frame m p).2.1]
    exact h.2

theorem setM_committed (m : Model) (p : Attrs) (h : m.committed) :
    (Model.setM m p false).1.committed := by
  unfold Model.setM
  split
  · split
    · exact h
    · exact setCore_committed m p h
  · exact setCore_committed m p h

theorem unsetM_committed (m : Model) (n : String) :
    (Model.unsetM m n false).1.committed := by
  unfold Model.unsetM
  simp only [Bool.false_eq_true, if_false]
  exact changeNow_committed _

theorem runOp_committed (m : Model) (op : MOp) (h : m.committed) :
    (Model.runOp m op).committed := by
  cases op with
  | write p => exact setM_committed m p h
  | removeAttr n => exact unsetM_committed m n
  | commit => exact changeNow_committed m

theorem runOps_committed (m : Model) (ops : List MOp) (h : m.committed) :
    (Model.runOps m ops).committed := by
  induction ops generalizing m with
  | nil => exact h
  | cons op t ih => exact ih _ (runOp_committed m op h)

theorem setM_changed_silent (m : Model) (p : Attrs) :
    (Model.setM m p true).1.changed = m.changed := by
  have hloop : (Model.setLoop (Model.setId m p) true p).1.changed = m.changed := by
    rw [setLoop_changed_silent, (setId_frame m p).2.2.1]
  unfold Model.setM Model.setCore
  split
  · split
    · rfl
    · simpa using hloop
  · simpa using hloop

theorem make_committed (cid : Nat) (ia : Attrs) (vf : Option (Attrs → Option Val)) :
    (Model.make cid ia vf).committed := by
  refine ⟨?_, rfl⟩
  show (Model.setM { cid := cid, validate := vf } ia true).1.changed = false
  rw [setM_changed_silent]

/-- C1 (amended): over every sequence of NON-silent writes, removes and
commits from a freshly constructed entity, the dirty flag is false, the
attributes deep-equal the last-commit snapshot, and `hasChanged()` is true
iff the attributes differ from that snapshot (each non-silent mutation ends
in a committed state).  The original claim extends this to writes with the
silent option, which the counterexample refutes: a silent write updates
attributes without touching the dirty flag. -/
theorem C1_nonsilent_dirty_tracking (cid : Nat) (ia : Attrs)
    (vf : Option (Attrs → Option Val)) (ops : List MOp) :
    Model.hasChangedAny (Model.runOps (Model.make cid ia vf) ops) = false ∧
    attrsEq (Model.runOps (Model.make cid ia vf) ops).attributes
      (Model.runOps (Model.make cid ia vf) ops).previousAttributes = true ∧
    (Model.hasChangedAny (Model.runOps (Model.make cid ia vf) ops) = true ↔
      attrsEq (Model.runOps (Model.make cid ia vf) ops).attributes
        (Model.runOps (Model.make cid ia vf) ops).previousAttributes = false) := by
  obtain ⟨h1, h2⟩ := runOps_committed (Model.make cid ia vf) ops (make_committed cid ia vf)
  refine ⟨h1, ?_, ?_⟩
  · rw [h2]
    exact attrsEq_refl _
  · constructor
    · intro hx
      rw [Model.hasChangedAny, h1] at hx
      exact absurd hx (by simp)
    · intro hx
      rw [h2, attrsEq_refl] at hx
      exact absurd hx (by simp)

/-- C1 witness: the amended statement evaluated after one concrete
non-silent write on a fresh entity. -/
theorem C1_nonsilent_dirty_tracking_wit :
    Model.hasChangedAny (Model.runOps (Model.make 1 [] none)
      [MOp.write [("a", Val.vnum 1)]]) = false ∧
    attrsEq (Model.runOps (Model.make 1 [] none) [MOp.write [("a", Val.vnum 1)]]).attributes
      (Model.runOps (Model.make 1 [] none)
        [MOp.write [("a", Val.vnum 1)]]).previousAttributes = true ∧
    (Model.hasChangedAny (Model.runOps (Model.make 1 [] none)
        [MOp.write [("a", Val.vnum 1)]]) = true ↔
      attrsEq (Model.runOps (Model.make 1 [] none)
          [MOp.write [("a", Val.vnum 1)]]).attributes
        (Model.runOps (Model.make 1 [] none)
          [MOp.write [("a", Val.vnum 1)]]).previousAttributes = false) :=
  C1_nonsilent_dirty_tracking 1 [] none [MOp.write [("a", Val.vnum 1)]]

/-- C1 counterexample: one silent write on a fresh entity leaves the dirty
flag false (so `hasChanged()` returns false) while the attributes are no
longer deep-equal to `previousAttributes`, refuting the claimed invariant
for sequences that include silent writes. -/
theorem C1_silent_write_breaks_invariant :
    Model.hasChangedAny (Model.setM (Model.make 1 [] none) [("a", Val.vnum 1)] true).1 = false ∧
    attrsEq (Model.setM (Model.make 1 [] none) [("a", Val.vnum 1)] true).1.attributes
      (Model.setM (Model.make 1 [] none) [("a", Val.vnum 1)] true).1.previousAttributes
      = false :=
  ⟨rfl, rfl⟩

theorem setM_reject (m : Model) (f : Attrs → Option Val) (p : Attrs)
    (err : Val) (s : Bool) (hv : m.validate = some f) (hf : f p = some err) :
    Model.setM m p s = (m, [(MEv.error err, m)], false) := by
  unfold Model.setM
  rw [hv]
  show (match f p with
    | some err => (m, [(MEv.error err, m)], false)
    | none => Model.setCore m p s) = (m, [(MEv.error err, m)], false)
  rw [hf]

/-- C2: when the caller-supplied validation hook rejects a patch, `set`
returns false, fires exactly one `error` event carrying the entity and the
error, and leaves the entire entity state (attributes, id, dirty flag,
previous snapshot) unchanged -- no key of the patch is applied. -/
theorem C2_validation_all_or_nothing (m : Model) (f : Attrs → Option Val) (p : Attrs)
    (err : Val) (s : Bool) (hv : m.validate = some f) (hf : f p = some err) :
    Model.setM m p s = (m, [(MEv.error err, m)], false) :=
  setM_reject m f p err s hv hf

/-- C2 witness: a hook rejecting an age of -1 blocks the write, fires one
error event, and leaves the entity untouched. -/
theorem C2_validation_all_or_nothing_wit :
    Model.setM mC2 [("age", Val.vnum (-1))] false =
      (mC2, [(MEv.error (Val.vstr "negative"), mC2)], false) :=
  C2_validation_all_or_nothing mC2 vhookC2 [("age", Val.vnum (-1))]
    (Val.vstr "negative") false rfl rfl

/-- C9: a non-silent `unset` fires `change:<name>` and then the commit
`change` event for ANY attribute name -- the events carry a dirty model
state -- and the attribute is absent afterwards, so a second `unset` of the
now-absent attribute fires exactly the same two events again (no presence
guard). -/
theorem C9_unset_fires_unconditionally (m : Model) (n : String) :
    (Model.unsetM m n false).2.1.map Prod.fst = [MEv.changeAttr n none, MEv.change] ∧
    (∀ e ∈ (Model.unsetM m n false).2.1, e.2.changed = true) ∧
    alook (Model.unsetM m n false).1.attributes n = none ∧
    (Model.unsetM (Model.unsetM m n false).1 n false).2.1.map Prod.fst =
      [MEv.changeAttr n none, MEv.change] := by
  refine ⟨rfl, ?_, ?_, rfl⟩
  · intro e he
    simp only [Model.unsetM, Model.changeNow, Bool.false_eq_true, if_false,
      List.mem_cons, List.mem_singleton, List.not_mem_nil] at he
    rcases he with h | h | h
    · rw [h]
    · rw [h]
    · exact absurd h (by simp)
  · exact alook_aerase_self _ _

theorem setLoop_trace_changeAttr (m : Model) (s : Bool) (p : List (String × Val)) :
    ∀ e ∈ (Model.setLoop m s p).2, ∃ k v, e.1 = MEv.changeAttr k v := by
  induction p generalizing m with
  | nil =>
    intro e he
    simp only [Model.setLoop, List.not_mem_nil] at he
  | cons kv rest ih =>
    obtain ⟨k, v⟩ := kv
    intro e he
    simp only [Model.setLoop] at he
    repeat' split at he
    all_goals try exact ih _ e he
    all_goals (
      rcases List.mem_cons.mp he with h | h
      · exact ⟨_, _, by rw [h]⟩
      · exact ih _ e h)

theorem setLoop_prev_eq (m : Model) (s : Bool) (p : List (String × Val)) :
    (Model.setLoop m s p).1.previousAttributes = m.previousAttributes :=
  (setLoop_frame m s p).1

theorem setCore_case (m : Model) (p : Attrs) (e : MEv × Model)
    (he : e ∈ (Model.setCore m p false).2.1) (hc : e.1 = MEv.change) :
    e.2.changed = true ∧
    e.2.previousAttributes = m.previousAttributes ∧
    e.2.attributes = (Model.setCore m p false).1.attributes ∧
    (Model.setCore m p false).1.previousAttributes = e.2.attributes ∧
    (Model.setCore m p false).1.changed = false := by
  by_cases hcg : (Model.setLoop (Model.setId m p) false p).1.changed = true
  · have hres : Model.setCore m p false =
        ((Model.changeNow (Model.setLoop (Model.setId m p) false p).1).1,
         (Model.setLoop (Model.setId m p) false p).2 ++
           (Model.changeNow (Model.setLoop (Model.setId m p) false p).1).2, true) := by
      unfold Model.setCore
      simp only [Bool.not_false, Bool.true_and, hcg, if_true]
    rw [hres] at he ⊢
    rcases List.mem_append.mp he with h | h
    · obtain ⟨k, v, hk⟩ := setLoop_trace_changeAttr _ false p e h
      rw [hk] at hc
      exact absurd hc (by simp)
    · simp only [Model.changeNow, List.mem_singleton] at h
      subst h
      refine ⟨hcg, ?_, rfl, rfl, rfl⟩
      rw [setLoop_prev_eq, (setId_frame m p).2.1]
  · have hcf : (Model.setLoop (Model.setId m p) false p).1.changed = false :=
      Bool.eq_false_iff.mpr hcg
    have hres : Model.setCore m p false =
        ((Model.setLoop (Model.setId m p) false p).1,
         (Model.setLoop (Model.setId m p) false p).2, true) := by
      unfold Model.setCore
      simp only [Bool.not_false, Bool.true_and, hcf, Bool.false_eq_true, if_false]
    rw [hres] at he
    obtain ⟨k, v, hk⟩ := setLoop_trace_changeAttr _ false p e he
    rw [hk] at hc
    exact absurd hc (by simp)

/-- C5 (amended): at the moment the commit fires `change` during a
non-silent `set`, every subscriber observes the OPPOSITE of the claimed
state: all attribute writes of the call are already applied, but
`previousAttributes` still holds the pre-call snapshot and the dirty flag is
still true; the snapshot advances and the flag clears only after the
`change` dispatch returns.  The original claim (snapshot already advanced,
dirty already false at handler time) is refuted by the counterexample. -/
theorem C5_commit_handlers_see_preadvance (m : Model) (p : Attrs) (e : MEv × Model)
    (he : e ∈ (Model.setM m p false).2.1) (hc : e.1 = MEv.change) :
    e.2.changed = true ∧
    e.2.previousAttributes = m.previousAttributes ∧
    e.2.attributes = (Model.setM m p false).1.attributes ∧
    (Model.setM m p false).1.previousAttributes = e.2.attributes ∧
    (Model.setM m p false).1.changed = false := by
  unfold Model.setM at he ⊢
  split at he
  · split at he
    · simp only [List.mem_singleton] at he
      rw [he] at hc
      exact absurd hc (by simp)
    · exact setCore_case m p e he hc
  · exact setCore_case m p e he hc

/-- C5 witness: the amended statement at the concrete `change` trace entry
of a one-attribute write. -/
theorem C5_commit_handlers_see_preadvance_wit :
    eC5.2.changed = true ∧
    eC5.2.previousAttributes = mC5.previousAttributes ∧
    eC5.2.attributes = (Model.setM mC5 pC5 false).1.attributes ∧
    (Model.setM mC5 pC5 false).1.previousAttributes = eC5.2.attributes ∧
    (Model.setM mC5 pC5 false).1.changed = false :=
  C5_commit_handlers_see_preadvance mC5 pC5 eC5
    (by
      have h : (Model.setM mC5 pC5 false).2.1 =
          [(MEv.changeAttr "a" (some (Val.vnum 1)), m2C5), eC5] := rfl
      rw [h]
      exact List.mem_cons_of_mem _ (List.mem_cons_self _ _))
    rfl

/-- C5 counterexample: the subscriber invoked by the commit of a concrete
non-silent write observes a model whose dirty flag is still true and whose
attributes differ from its `previousAttributes`, contradicting the claim
that the snapshot has already advanced and dirty is already false. -/
theorem C5_handler_state_not_committed :
    ((Model.setM mC5 pC5 false).2.1.getD 1 (MEv.change, mC5)).2.changed = true ∧
    ((Model.setM mC5 pC5 false).2.1.getD 1 (MEv.change, mC5)).2.attributes ≠
      ((Model.setM mC5 pC5 false).2.1.getD 1 (MEv.change, mC5)).2.previousAttributes :=
  ⟨rfl, by decide⟩

/-- C6 (code bug): with two callbacks registered for event `e`, the first of
which unbinds itself when invoked, `trigger` runs the first callback and
then -- because the loop cached the length but reads the live, in-place
shortened array -- reads past its end: the second callback is never invoked
and the dispatch crashes applying `undefined` (a TypeError).  The claim and
spec section 4.1 require every callback registered at publish start to run
exactly once, in order, with mid-iteration unsubscription never corrupting
the dispatch; the invocation log `[1]` (not `[1, 2]`) and the crash flag
refute that for this code. -/
theorem C6_unbind_during_trigger_corrupts :
    triggerCb csC6 "e" = ([("e", [Handler.mk 2 HAct.noop])], [1], true) := by decide

/-- C9 witness: the statement evaluated on an entity holding one attribute. -/
theorem C9_unset_fires_unconditionally_wit :
    (Model.unsetM mC9 "x" false).2.1.map Prod.fst = [MEv.changeAttr "x" none, MEv.change] ∧
    (∀ e ∈ (Model.unsetM mC9 "x" false).2.1, e.2.changed = true) ∧
    alook (Model.unsetM mC9 "x" false).1.attributes "x" = none ∧
    (Model.unsetM (Model.unsetM mC9 "x" false).1 "x" false).2.1.map Prod.fst =
      [MEv.changeAttr "x" none, MEv.change] :=
  C9_unset_fires_unconditionally mC9 "x"

/-- C3 (amended): the duplicate probe of `_add` consults only the primaryId
index, through `get`.  When the probed key of the incoming entity -- its
`id`, for a loosely non-null id -- is already mapped, `_add` throws the
duplicate error BEFORE any mutation, so the collection is unchanged.  An
entity whose primaryId is null/absent probes under its `toString` key and
never matches, so a duplicate that shares only the clientId is NOT detected:
the same entity is inserted a second time (see the counterexample). -/
theorem C3_duplicate_check_via_id_index (w : World) (m : Model) (s : Bool) (c' : Nat)
    (h1 : looseEq m.id (some Val.vnull) = false)
    (h2 : alook w.coll.byId (jsStr m.id) = some c') :
    World.addOne w m s = Except.error CollErr.dupAdd := by
  simp [World.addOne, World.getRef, alook_aset_self, h1, h2]

/-- C3 witness: inserting a fresh entity carrying primaryId 42 into a
collection already holding a member under primaryId 42 throws the duplicate
error with nothing mutated. -/
theorem C3_duplicate_check_via_id_index_wit :
    World.addOne wC3w mC3w false = Except.error CollErr.dupAdd :=
  C3_duplicate_check_via_id_index wC3w mC3w false 7 rfl rfl

/-- C3 counterexample: the SAME entity (same clientId, absent primaryId) is
inserted twice with no duplicate error; the second insert succeeds and the
collection size grows from 1 to 2, refuting the claimed clientId-duplicate
detection and the claimed unchanged-size guarantee. -/
theorem C3_same_cid_inserted_twice :
    World.addOne wC3 eC3 false = Except.ok (w1C3, [CEvent.add 1]) ∧
    World.addOne w1C3 eC3b false = Except.ok (w2C3, [CEvent.add 1]) ∧
    w1C3.coll.length = 1 ∧ w2C3.coll.length = 2 :=
  ⟨rfl, rfl, rfl, rfl⟩

/-- C8 (amended): `removeOne` resolves its argument through `get`; an
unresolved reference is a no-op returning null; a resolved member is removed
from both indices and the sequence, its owning-collection back-reference
cleared, its wildcard re-broadcast subscription unbound, the size
decremented, and `remove` fired unless silent.  However a member whose
primaryId is null/absent is NOT resolvable -- `get` probes it under its
`toString` key -- so such a member cannot be removed by any reference (see
the counterexample), against the claim. -/
theorem C8_removeOne_resolution (w : World) (r : Ref) (s : Bool) :
    (World.getRef w r = none → World.removeOne w r s = (w, [], none)) ∧
    (∀ cid m i, World.getRef w r = some cid → alook w.store cid = some m →
      w.coll.models.findIdx? (fun c => c == cid) = some i →
      World.removeOne w r s =
        ({ store := aset w.store cid
              { m with collection := false, boundAll := m.boundAll - 1 },
           coll := { w.coll with
                      byId := aerase w.coll.byId (jsStr m.id),
                      byCid := aerase w.coll.byCid cid,
                      models := w.coll.models.eraseIdx i,
                      length := w.coll.length - 1 } },
         if s then [] else [CEvent.remove cid], some cid) ∧
      alook (aerase w.coll.byId (jsStr m.id)) (jsStr m.id) = none ∧
      alook (aerase w.coll.byCid cid) cid = none) := by
  constructor
  · intro h
    unfold World.removeOne
    rw [h]
  · intro cid m i h1 h2 h3
    refine ⟨?_, alook_aerase_self _ _, alook_aerase_self _ _⟩
    simp only [World.removeOne, h1, h2, h3]

/-- C8 witness: on a collection holding one member under primaryId 5, an
unresolved raw id is a no-op, and removal by the raw id 5 deletes from both
indices and the sequence, clears the back-reference, unbinds the handler,
decrements the size and fires `remove`. -/
theorem C8_removeOne_resolution_wit :
    World.removeOne wC8 (Ref.byVal (Val.vstr "9")) false = (wC8, [], none) ∧
    (World.removeOne wC8 (Ref.byVal (Val.vstr "5")) false =
      ({ store := aset wC8.store 1 { mC8 with collection := false, boundAll := 0 },
         coll := { wC8.coll with
                    byId := aerase wC8.coll.byId "5",
                    byCid := aerase wC8.coll.byCid 1,
                    models := wC8.coll.models.eraseIdx 0,
                    length := 0 } },
       [CEvent.remove 1], some 1) ∧
      alook (aerase wC8.coll.byId "5") "5" = none ∧
      alook (aerase wC8.coll.byCid 1) 1 = none) :=
  ⟨(C8_removeOne_resolution wC8 (Ref.byVal (Val.vstr "9")) false).1 rfl,
   (C8_removeOne_resolution wC8 (Ref.byVal (Val.vstr "5")) false).2 1 mC8 0 rfl rfl rfl⟩

/-- C8 counterexample: a member inserted with absent primaryId cannot be
removed by passing the member entity itself: `removeOne` returns null and
the collection is unchanged (size still 1), refuting the claimed resolution
of member entities with null/absent primaryId. -/
theorem C8_null_id_member_unremovable :
    World.addOne { store := [], coll := {} } { cid := 1 } false =
      Except.ok (wC8n, [CEvent.add 1]) ∧
    World.removeOne wC8n (Ref.byModel 1) false = (wC8n, [], none) ∧
    wC8n.coll.length = 1 :=
  ⟨rfl, rfl, rfl⟩

theorem setM_single_id (m : Model) (s : String)
    (hv : m.validate = none) (hs : s ≠ "")
    (hdiff : isEqual (alook m.attributes "id") (some (Val.vstr s)) = false) :
    Model.setM m [("id", Val.vstr s)] false =
      ({ m with id := some (Val.vstr s),
                attributes := aset m.attributes "id" (Val.vstr s),
                previousAttributes := aset m.attributes "id" (Val.vstr s),
                changed := false },
       [(MEv.changeAttr "id" (some (Val.vstr s)),
         { m with id := some (Val.vstr s),
                  attributes := aset m.attributes "id" (Val.vstr s), changed := true }),
        (MEv.change,
         { m with id := some (Val.vstr s),
                  attributes := aset m.attributes "id" (Val.vstr s), changed := true })],
       true) := by
  simp [Model.setM, hv, Model.setCore, Model.setId, Model.setLoop, Model.changeNow,
        alook, hs, hdiff]

theorem foldTrace_id_events (c : Collection) (n : Nat) (m2 : Model) (s : String)
    (hb2 : n = 1)
    (hloose : looseEq (alook m2.previousAttributes "id") (alook m2.attributes "id") = false)
    (hid : m2.id = some (Val.vstr s)) :
    foldTrace c n [(MEv.changeAttr "id" (some (Val.vstr s)), m2), (MEv.change, m2)] =
      ({ c with byId := aset (aerase c.byId (jsStr (alook m2.previousAttributes "id")))
                             s m2.cid },
       [CEvent.change m2.cid]) := by
  rw [hb2]
  simp [foldTrace, applyHandlerN, Collection.onModelEvent, Model.hasChangedAttr,
        Model.previousVal, hloose, hid, jsStr]

theorem setModel_id_spec (w : World) (cid : Nat) (m : Model) (s : String)
    (hm : alook w.store cid = some m) (hcid : m.cid = cid) (hb : m.boundAll = 1)
    (hv : m.validate = none) (hs : s ≠ "")
    (hdiff : isEqual (alook m.attributes "id") (some (Val.vstr s)) = false)
    (hloose : looseEq (alook m.previousAttributes "id") (some (Val.vstr s)) = false) :
    World.setModel w cid [("id", Val.vstr s)] false =
      ({ store := aset w.store cid
            { m with id := some (Val.vstr s),
                     attributes := aset m.attributes "id" (Val.vstr s),
                     previousAttributes := aset m.attributes "id" (Val.vstr s),
                     changed := false },
         coll := { w.coll with
                    byId := aset (aerase w.coll.byId
                      (jsStr (alook m.previousAttributes "id"))) s cid } },
       [CEvent.change cid], true) := by
  have hl2 : looseEq (alook m.previousAttributes "id")
      (alook (aset m.attributes "id" (Val.vstr s)) "id") = false := by
    rw [alook_aset_self]
    exact hloose
  simp only [World.setModel, hm]
  rw [setM_single_id m s hv hs hdiff]
  dsimp only
  rw [foldTrace_id_events w.coll m.boundAll _ s hb hl2 rfl]
  dsimp only
  rw [hcid]

/-- C7: when a member that was inserted with a loosely-null primaryId (or
any member whose `hasChanged(idAttr)` detects an id change) gets a new
string primaryId through a non-silent write, the re-broadcast handler
re-keys `byPrimaryId` and re-publishes: afterwards the raw id resolves to
the entity, the old key (the stringified previous id) is dropped whenever it
differs from the new key, the null lookup stays absent (a falsy probe), and
the collection publishes exactly one collection-level `change` carrying the
entity. -/
theorem C7_id_change_rekeys_index (w : World) (cid : Nat) (m : Model) (s : String)
    (hm : alook w.store cid = some m) (hcid : m.cid = cid) (hb : m.boundAll = 1)
    (hv : m.validate = none) (hs : s ≠ "")
    (hdiff : isEqual (alook m.attributes "id") (some (Val.vstr s)) = false)
    (hloose : looseEq (alook m.previousAttributes "id") (some (Val.vstr s)) = false)
    (hold : jsStr (alook m.previousAttributes "id") ≠ s) :
    World.getRef (World.setModel w cid [("id", Val.vstr s)] false).1
      (Ref.byVal (Val.vstr s)) = some cid ∧
    alook (World.setModel w cid [("id", Val.vstr s)] false).1.coll.byId
      (jsStr (alook m.previousAttributes "id")) = none ∧
    World.getRef (World.setModel w cid [("id", Val.vstr s)] false).1
      (Ref.byVal Val.vnull) = none ∧
    (World.setModel w cid [("id", Val.vstr s)] false).2.1 = [CEvent.change cid] := by
  rw [setModel_id_spec w cid m s hm hcid hb hv hs hdiff hloose]
  refine ⟨?_, ?_, rfl, rfl⟩
  · have hts : truthyV (Val.vstr s) = true := by
      simp [truthyV, hs]
    simp only [World.getRef, hts, if_true, jsStr]
    exact alook_aset_self _ _ _
  · show alook (aset (aerase w.coll.byId (jsStr (alook m.previousAttributes "id"))) s cid)
      (jsStr (alook m.previousAttributes "id")) = none
    rw [alook_aset_ne _ _ _ _ hold]
    exact alook_aerase_self _ _

/-- C7 witness: a member inserted with absent primaryId, indexed under the
key `undefined`, written with id 7: the index maps 7 to it, the old key is
gone, the null probe misses, and the collection publishes one change. -/
theorem C7_id_change_rekeys_index_wit :
    World.getRef (World.setModel wC7 1 [("id", Val.vstr "7")] false).1
      (Ref.byVal (Val.vstr "7")) = some 1 ∧
    alook (World.setModel wC7 1 [("id", Val.vstr "7")] false).1.coll.byId
      (jsStr (alook eC7.previousAttributes "id")) = none ∧
    World.getRef (World.setModel wC7 1 [("id", Val.vstr "7")] false).1
      (Ref.byVal Val.vnull) = none ∧
    (World.setModel wC7 1 [("id", Val.vstr "7")] false).2.1 = [CEvent.change 1] :=
  C7_id_change_rekeys_index wC7 1 eC7 "7" rfl rfl rfl rfl (by decide) rfl rfl (by decide)

theorem addOne_store_frame (w : World) (m : Model) (s : Bool) (w' : World)
    (evs : List CEvent) (h : World.addOne w m s = Except.ok (w', evs)) (c : Nat)
    (hc : c ≠ m.cid) : alook w'.store c = alook w.store c := by
  unfold World.addOne at h
  dsimp only at h
  cases hg : World.getRef { store := aset w.store m.cid m, coll := w.coll }
      (Ref.byModel m.cid) with
  | some v =>
    rw [hg] at h
    exact absurd h (by simp)
  | none =>
    rw [hg] at h
    dsimp only at h
    simp only [Except.ok.injEq, Prod.mk.injEq] at h
    obtain ⟨hw, _⟩ := h
    subst hw
    dsimp only
    rw [alook_aset_ne _ _ _ _ hc, alook_aset_ne _ _ _ _ hc, alook_aset_ne _ _ _ _ hc]

theorem addList_store_frame (L : List Model) (w : World) (s : Bool) (c : Nat)
    (h : c ∉ L.map Model.cid) :
    alook (World.addList w L s).1.store c = alook w.store c := by
  induction L generalizing w with
  | nil => rfl
  | cons m t ih =>
    simp only [List.map_cons, List.mem_cons, not_or] at h
    obtain ⟨h1, h2⟩ := h
    unfold World.addList
    cases ha : World.addOne w m s with
    | error e => rfl
    | ok r =>
      dsimp only
      rw [ih r.1 h2, addOne_store_frame w m s r.1 r.2 (by rw [ha]) c h1]

theorem refresh_world_eq (w : World) (L : List Model) (sil : Bool) :
    (World.refresh w L sil).1 =
      (World.addList { w with coll := { comparator := w.coll.comparator } } L true).1 := by
  unfold World.refresh
  dsimp only
  cases (World.addList { w with coll := { comparator := w.coll.comparator } } L true).2.2 <;>
    rfl

theorem refresh_store_frame (w : World) (L : List Model) (sil : Bool) (c : Nat)
    (h : c ∉ L.map Model.cid) :
    alook (World.refresh w L sil).1.store c = alook w.store c := by
  rw [refresh_world_eq]
  exact addList_store_frame L _ true c h

theorem setM_single_plain (m : Model) (k : String) (z : Int)
    (hv : m.validate = none) (hk : k ≠ "id")
    (hdiff : isEqual (alook m.attributes k) (some (Val.vnum z)) = false) :
    Model.setM m [(k, Val.vnum z)] false =
      ({ m with attributes := aset m.attributes k (Val.vnum z),
                previousAttributes := aset m.attributes k (Val.vnum z),
                changed := false },
       [(MEv.changeAttr k (some (Val.vnum z)),
         { m with attributes := aset m.attributes k (Val.vnum z), changed := true }),
        (MEv.change,
         { m with attributes := aset m.attributes k (Val.vnum z), changed := true })],
       true) := by
  simp [Model.setM, hv, Model.setCore, Model.setId, Model.setLoop, Model.changeNow,
        alook, hk, hdiff]

theorem foldTrace_plain_events (c : Collection) (n : Nat) (m2 : Model) (k : String)
    (vv : Option Val) (hb2 : n = 1)
    (hloose : looseEq (alook m2.previousAttributes "id") (alook m2.attributes "id") = true) :
    foldTrace c n [(MEv.changeAttr k vv, m2), (MEv.change, m2)] =
      (c, [CEvent.change m2.cid]) := by
  rw [hb2]
  simp [foldTrace, applyHandlerN, Collection.onModelEvent, Model.hasChangedAttr, hloose]

theorem foldTrace_error_event (c : Collection) (n : Nat) (m2 : Model) (err : Val)
    (hb2 : n = 1) :
    foldTrace c n [(MEv.error err, m2)] = (c, [CEvent.error m2.cid err]) := by
  rw [hb2]
  simp [foldTrace, applyHandlerN, Collection.onModelEvent]

theorem setModel_error_spec (w : World) (cid : Nat) (m : Model) (f : Attrs → Option Val)
    (p : Attrs) (err : Val)
    (hm : alook w.store cid = some m) (hcid : m.cid = cid) (hb : m.boundAll = 1)
    (hv : m.validate = some f) (hf : f p = some err) :
    World.setModel w cid p false =
      ({ store := aset w.store cid m, coll := w.coll }, [CEvent.error cid err], false) := by
  simp only [World.setModel, hm]
  rw [setM_reject m f p err false hv hf]
  dsimp only
  rw [foldTrace_error_event w.coll m.boundAll m err hb]
  rw [hcid]

theorem setModel_plain_spec (w : World) (cid : Nat) (m : Model) (k : String) (z : Int)
    (hm : alook w.store cid = some m) (hcid : m.cid = cid) (hb : m.boundAll = 1)
    (hv : m.validate = none) (hk : k ≠ "id")
    (hdiff : isEqual (alook m.attributes k) (some (Val.vnum z)) = false)
    (hid : looseEq (alook m.previousAttributes "id") (alook m.attributes "id") = true) :
    World.setModel w cid [(k, Val.vnum z)] false =
      ({ store := aset w.store cid
            { m with attributes := aset m.attributes k (Val.vnum z),
                     previousAttributes := aset m.attributes k (Val.vnum z),
                     changed := false },
         coll := w.coll },
       [CEvent.change cid], true) := by
  have hid2 : looseEq (alook m.previousAttributes "id")
      (alook (aset m.attributes k (Val.vnum z)) "id") = true := by
    rw [alook_aset_ne _ _ _ _ (Ne.symm hk)]
    exact hid
  simp only [World.setModel, hm]
  rw [setM_single_plain m k z hv hk hdiff]
  dsimp only
  rw [foldTrace_plain_events w.coll m.boundAll _ k _ hb hid2]
  dsimp only
  rw [hcid]

/-- C10: `refresh` reinitializes the indices and the sequence WITHOUT
detaching or unsubscribing the previous members: a former member not in the
new list keeps its exact state -- owning-collection back-reference and
wildcard re-broadcast registration included -- and a later non-silent
attribute change on it still makes the collection publish a collection-level
`change`, an id change on it still re-keys `byPrimaryId` of the NEW index
and publishes `change`, and a rejected write on it still makes the
collection publish a collection-level `error`.  Only `removeOne` performs
that cleanup. -/
theorem C10_refresh_keeps_stale_bindings (w : World) (L : List Model) (sil : Bool)
    (cid : Nat) (m : Model)
    (hm : alook w.store cid = some m) (hnot : cid ∉ L.map Model.cid)
    (hcid : m.cid = cid) (hb : m.boundAll = 1) :
    alook (World.refresh w L sil).1.store cid = some m ∧
    (∀ k z, m.validate = none → k ≠ "id" →
      isEqual (alook m.attributes k) (some (Val.vnum z)) = false →
      looseEq (alook m.previousAttributes "id") (alook m.attributes "id") = true →
      (World.setModel (World.refresh w L sil).1 cid [(k, Val.vnum z)] false).2.1 =
        [CEvent.change cid]) ∧
    (∀ s, m.validate = none → s ≠ "" →
      isEqual (alook m.attributes "id") (some (Val.vstr s)) = false →
      looseEq (alook m.previousAttributes "id") (some (Val.vstr s)) = false →
      alook (World.setModel (World.refresh w L sil).1 cid
          [("id", Val.vstr s)] false).1.coll.byId s = some cid ∧
      (World.setModel (World.refresh w L sil).1 cid
          [("id", Val.vstr s)] false).2.1 = [CEvent.change cid]) ∧
    (∀ f p err, m.validate = some f → f p = some err →
      (World.setModel (World.refresh w L sil).1 cid p false).2.1 =
        [CEvent.error cid err] ∧
      (World.setModel (World.refresh w L sil).1 cid p false).2.2 = false) := by
  have hframe : alook (World.refresh w L sil).1.store cid = some m := by
    rw [refresh_store_frame w L sil cid hnot]
    exact hm
  refine ⟨hframe, ?_, ?_, ?_⟩
  · intro k z hv hk hdiff hid
    rw [setModel_plain_spec _ cid m k z hframe hcid hb hv hk hdiff hid]
  · intro s hv hs hdiff hloose
    rw [setModel_id_spec _ cid m s hframe hcid hb hv hs hdiff hloose]
    exact ⟨alook_aset_self _ _ _, rfl⟩
  · intro f p err hv hf
    rw [setModel_error_spec _ cid m f p err hframe hcid hb hv hf]
    exact ⟨rfl, rfl⟩

/-- C10 witness: after refreshing away two members (one plain, one carrying
a rejecting hook), a plain write on the first still yields a collection
`change`, an id write on it still re-keys the new index, and a rejected
write on the second still yields a collection `error`. -/
theorem C10_refresh_keeps_stale_bindings_wit :
    alook (World.refresh wC10 LC10 false).1.store 1 = some eC10 ∧
    (World.setModel (World.refresh wC10 LC10 false).1 1 [("a", Val.vnum 5)] false).2.1 =
      [CEvent.change 1] ∧
    alook (World.setModel (World.refresh wC10 LC10 false).1 1
        [("id", Val.vstr "9")] false).1.coll.byId "9" = some 1 ∧
    (World.setModel (World.refresh wC10 LC10 false).1 3
        [("bad", Val.vnum 1)] false).2.1 = [CEvent.error 3 (Val.vstr "rejected")] := by
  have h1 := C10_refresh_keeps_stale_bindings wC10 LC10 false 1 eC10 rfl (by decide) rfl rfl
  have h3 := C10_refresh_keeps_stale_bindings wC10 LC10 false 3 eC10v rfl (by decide) rfl rfl
  exact ⟨h1.1, h1.2.1 "a" 5 rfl (by decide) rfl rfl,
         (h1.2.2.1 "9" rfl (by decide) rfl rfl).1,
         (h3.2.2.2 vhookC10 [("bad", Val.vnum 1)] (Val.vstr "rejected") rfl rfl).1⟩

theorem sIndexAux_char (ks : List Int) (k : Int)
    (hs : ∀ i j : Nat, i ≤ j → j < ks.length → ks.getD i 0 ≤ ks.getD j 0) :
    ∀ fuel low high, high - low ≤ fuel → low ≤ high → high ≤ ks.length →
      low ≤ sIndexAux ks k fuel low high ∧
      sIndexAux ks k fuel low high ≤ high ∧
      (∀ i, i < sIndexAux ks k fuel low high → low ≤ i → ks.getD i 0 < k) ∧
      (∀ i, sIndexAux ks k fuel low high ≤ i → i < high → k ≤ ks.getD i 0) := by
  intro fuel
  induction fuel with
  | zero =>
    intro low high h1 h2 h3
    have hh : high = low := by omega
    subst hh
    simp only [sIndexAux]
    exact ⟨le_refl _, le_refl _, fun i hi1 hi2 => absurd hi1 (by omega),
           fun i hi1 hi2 => absurd hi2 (by omega)⟩
  | succ n ih =>
    intro low high h1 h2 h3
    by_cases hlh : low < high
    · have hmid1 : low ≤ (low + high) / 2 := by omega
      have hmid2 : (low + high) / 2 < high := by omega
      have hstep : sIndexAux ks k (n + 1) low high =
          if ks.getD ((low + high) / 2) 0 < k then
            sIndexAux ks k n ((low + high) / 2 + 1) high
          else sIndexAux ks k n low ((low + high) / 2) := by
        simp only [sIndexAux]
        rw [if_pos hlh]
      rw [hstep]
      by_cases hp : ks.getD ((low + high) / 2) 0 < k
      · rw [if_pos hp]
        obtain ⟨a, b, c3, c4⟩ := ih ((low + high) / 2 + 1) high (by omega) (by omega) h3
        refine ⟨by omega, b, ?_, c4⟩
        intro i hi hlow
        by_cases hc : i ≤ (low + high) / 2
        · exact lt_of_le_of_lt (hs i ((low + high) / 2) hc (by omega)) hp
        · exact c3 i hi (by omega)
      · rw [if_neg hp]
        obtain ⟨a, b, c3, c4⟩ := ih low ((low + high) / 2) (by omega) (by omega) (by omega)
        refine ⟨a, by omega, c3, ?_⟩
        intro i hi hhigh
        by_cases hc : i < (low + high) / 2
        · exact c4 i hi hc
        · exact le_trans (le_of_not_lt hp) (hs _ i (by omega) (by omega))
    · have hres : sIndexAux ks k (n + 1) low high = low := by
        simp only [sIndexAux]
        rw [if_neg hlh]
      rw [hres]
      exact ⟨le_refl _, h2, fun i hi1 hi2 => absurd hi1 (by omega),
             fun i hi1 hi2 => absurd hi2 (by omega)⟩

theorem sIndex_char (ks : List Int) (k : Int)
    (hs : ∀ i j : Nat, i ≤ j → j < ks.length → ks.getD i 0 ≤ ks.getD j 0) :
    sIndex ks k ≤ ks.length ∧
    (∀ i, i < sIndex ks k → ks.getD i 0 < k) ∧
    (∀ i, sIndex ks k ≤ i → i < ks.length → k ≤ ks.getD i 0) := by
  obtain ⟨a, b, c3, c4⟩ :=
    sIndexAux_char ks k hs ks.length 0 ks.length (by omega) (by omega) (le_refl _)
  exact ⟨b, fun i hi => c3 i hi (Nat.zero_le i), c4⟩

theorem sorted_getD_mono (ks : List Int) (hs : List.Sorted (· ≤ ·) ks) :
    ∀ i j : Nat, i ≤ j → j < ks.length → ks.getD i 0 ≤ ks.getD j 0 := by
  intro i j hij hj
  have hi : i < ks.length := by omega
  rw [List.getD_eq_getElem?_getD, List.getD_eq_getElem?_getD,
      List.getElem?_eq_getElem hi, List.getElem?_eq_getElem hj]
  simp only [Option.getD_some]
  rcases Nat.eq_or_lt_of_le hij with h | h
  · subst h
    exact le_refl _
  · exact List.pairwise_iff_getElem.mp hs i j hi hj h

theorem insertIdx_eq_take_drop (a : Int) : ∀ (n : Nat) (l : List Int), n ≤ l.length →
    l.insertIdx n a = l.take n ++ a :: l.drop n := by
  intro n
  induction n with
  | zero =>
    intro l h
    simp
  | succ n ih =>
    intro l h
    cases l with
    | nil => simp at h
    | cons x t =>
      simp only [List.insertIdx_succ_cons, List.take_succ_cons, List.drop_succ_cons,
        List.cons_append, List.cons.injEq, true_and]
      exact ih t (by simpa using h)

theorem sorted_insertIdx_sIndex (ks : List Int) (k : Int)
    (hs : List.Sorted (· ≤ ·) ks) :
    List.Sorted (· ≤ ·) (ks.insertIdx (sIndex ks k) k) := by
  have hmono := sorted_getD_mono ks hs
  obtain ⟨hlen, hlt, hge⟩ := sIndex_char ks k hmono
  rw [insertIdx_eq_take_drop k (sIndex ks k) ks hlen]
  show List.Pairwise (· ≤ ·) (ks.take (sIndex ks k) ++ k :: ks.drop (sIndex ks k))
  rw [List.pairwise_append]
  refine ⟨List.Pairwise.sublist (List.take_sublist _ _) hs, ?_, ?_⟩
  · rw [List.pairwise_cons]
    refine ⟨?_, List.Pairwise.sublist (List.drop_sublist _ _) hs⟩
    intro b hb
    obtain ⟨j, hj, hbj⟩ := List.getElem_of_mem hb
    have hlt2 : sIndex ks k + j < ks.length := by
      rw [List.length_drop] at hj
      omega
    have h3 := hge (sIndex ks k + j) (by omega) hlt2
    rw [List.getD_eq_getElem?_getD, List.getElem?_eq_getElem hlt2] at h3
    rw [← hbj, List.getElem_drop]
    simpa using h3
  · intro a ha b hb
    obtain ⟨i, hi, hai⟩ := List.getElem_of_mem ha
    have hir : i < sIndex ks k := by
      rw [List.length_take] at hi
      omega
    have hile : i < ks.length := by omega
    have hak : a < k := by
      have h2 := hlt i hir
      rw [List.getD_eq_getElem?_getD, List.getElem?_eq_getElem hile] at h2
      rw [← hai, List.getElem_take]
      simpa using h2
    rcases List.mem_cons.mp hb with hbk | hbd
    · exact le_of_lt (hbk ▸ hak)
    · obtain ⟨j, hj, hbj⟩ := List.getElem_of_mem hbd
      have hlt2 : sIndex ks k + j < ks.length := by
        rw [List.length_drop] at hj
        omega
      have h3 := hge (sIndex ks k + j) (by omega) hlt2
      rw [List.getD_eq_getElem?_getD, List.getElem?_eq_getElem hlt2] at h3
      rw [← hbj, List.getElem_drop]
      refine le_trans (le_of_lt hak) ?_
      simpa using h3

theorem keyOf_eq (w : World) (cmp : Attrs → Int) (c : Nat) (mm : Model)
    (h : alook w.store c = some mm) : World.keyOf w cmp c = cmp mm.attributes := by
  unfold World.keyOf
  rw [h]

theorem keyOf_congr (w1 w2 : World) (cmp : Attrs → Int) (c : Nat)
    (h : alook w1.store c = alook w2.store c) :
    World.keyOf w1 cmp c = World.keyOf w2 cmp c := by
  unfold World.keyOf
  rw [h]

theorem map_insertIdx (f : Nat → Int) (a : Nat) : ∀ (n : Nat) (l : List Nat),
    (l.insertIdx n a).map f = (l.map f).insertIdx n (f a) := by
  intro n
  induction n with
  | zero =>
    intro l
    simp [List.insertIdx_zero]
  | succ n ih =>
    intro l
    cases l with
    | nil => simp [List.insertIdx_succ_nil]
    | cons x t => simp [List.insertIdx_succ_cons, ih t]

theorem C4Inv_insert (cmp : Attrs → Int) (w : World) (m : Model) (w' : World)
    (hinv : C4Inv cmp w)
    (halias : alook w.store m.cid = none ∨ alook w.store m.cid = some m)
    (hcomp' : w'.coll.comparator = some cmp)
    (hstore_ne : ∀ c, c ≠ m.cid → alook w'.store c = alook w.store c)
    (hstore_m : ∃ mm, alook w'.store m.cid = some mm ∧ mm.attributes = m.attributes)
    (hmodels : w'.coll.models =
      w.coll.models.insertIdx (sIndex (World.keys w cmp) (cmp m.attributes)) m.cid) :
    C4Inv cmp w' := by
  obtain ⟨hcmp, hmem, hsort⟩ := hinv
  obtain ⟨mmw, hmmw, hattrw⟩ := hstore_m
  have hmono := sorted_getD_mono _ hsort
  have hbound : sIndex (World.keys w cmp) (cmp m.attributes) ≤ w.coll.models.length := by
    have h1 := (sIndex_char (World.keys w cmp) (cmp m.attributes) hmono).1
    have h2 : (World.keys w cmp).length = w.coll.models.length := by
      unfold World.keys
      exact List.length_map _ _
    omega
  refine ⟨hcomp', ?_, ?_⟩
  · intro c hc
    rw [hmodels, List.mem_insertIdx hbound] at hc
    rcases hc with hc | hc
    · subst hc
      exact ⟨mmw, hmmw⟩
    · by_cases hcm : c = m.cid
      · subst hcm
        exact ⟨mmw, hmmw⟩
      · obtain ⟨mm, hmm⟩ := hmem c hc
        exact ⟨mm, by rw [hstore_ne c hcm]; exact hmm⟩
  · show List.Sorted (· ≤ ·) (World.keys w' cmp)
    unfold World.keys
    rw [hmodels, map_insertIdx]
    have h1 : World.keyOf w' cmp m.cid = cmp m.attributes := by
      rw [keyOf_eq w' cmp m.cid mmw hmmw, hattrw]
    have h2 : w.coll.models.map (w'.keyOf cmp) = World.keys w cmp := by
      unfold World.keys
      apply List.map_congr_left
      intro c hc
      by_cases hcm : c = m.cid
      · subst hcm
        rcases halias with hn | hsome
        · obtain ⟨mm, hmm⟩ := hmem _ hc
          rw [hn] at hmm
          exact absurd hmm (by simp)
        · rw [keyOf_eq w' cmp _ mmw hmmw, keyOf_eq w cmp _ m hsome, hattrw]
      · obtain ⟨mm, hmm⟩ := hmem c hc
        rw [keyOf_eq w' cmp c mm (by rw [hstore_ne c hcm]; exact hmm),
            keyOf_eq w cmp c mm hmm]
    rw [h1, h2]
    exact sorted_insertIdx_sIndex _ _ hsort

theorem addOne_inv (cmp : Attrs → Int) (w : World) (m : Model) (s : Bool)
    (w' : World) (evs : List CEvent)
    (halias : alook w.store m.cid = none ∨ alook w.store m.cid = some m)
    (h : World.addOne w m s = Except.ok (w', evs))
    (hinv : C4Inv cmp w) : C4Inv cmp w' := by
  have hcmp := hinv.1
  unfold World.addOne at h
  dsimp only at h
  cases hg : World.getRef { store := aset w.store m.cid m, coll := w.coll }
      (Ref.byModel m.cid) with
  | some v =>
    rw [hg] at h
    exact absurd h (by simp)
  | none =>
    rw [hg, hcmp] at h
    dsimp only at h
    simp only [Except.ok.injEq, Prod.mk.injEq] at h
    obtain ⟨hw, _⟩ := h
    apply C4Inv_insert cmp w m w' hinv halias
    · rw [← hw]
    · intro c hc
      rw [← hw]
      dsimp only
      rw [alook_aset_ne _ _ _ _ hc, alook_aset_ne _ _ _ _ hc, alook_aset_ne _ _ _ _ hc]
    · rw [← hw]
      dsimp only
      exact ⟨_, alook_aset_self _ _ _, rfl⟩
    · rw [← hw]
      dsimp only
      refine congrArg
        (fun l => List.insertIdx (sIndex l (cmp m.attributes)) m.cid w.coll.models) ?_
      show List.map _ w.coll.models = World.keys w cmp
      unfold World.keys
      apply List.map_congr_left
      intro c hc
      by_cases hcm : c = m.cid
      · subst hcm
        rcases halias with hn | hsome
        · obtain ⟨mm, hmm⟩ := hinv.2.1 _ hc
          rw [hn] at hmm
          exact absurd hmm (by simp)
        · rw [keyOf_eq _ cmp _ _ (alook_aset_self _ _ _), keyOf_eq w cmp _ m hsome]
      · exact keyOf_congr _ w cmp c (by
          rw [alook_aset_ne _ _ _ _ hcm, alook_aset_ne _ _ _ _ hcm])

theorem C4Inv_sublist (cmp : Attrs → Int) (w w' : World) (hinv : C4Inv cmp w)
    (hcomp' : w'.coll.comparator = some cmp)
    (hstore : ∀ c mm, alook w.store c = some mm →
      ∃ mm2, alook w'.store c = some mm2 ∧ mm2.attributes = mm.attributes)
    (hmodels : List.Sublist w'.coll.models w.coll.models) :
    C4Inv cmp w' := by
  obtain ⟨hcmp, hmem, hsort⟩ := hinv
  refine ⟨hcomp', ?_, ?_⟩
  · intro c hc
    obtain ⟨mm, hmm⟩ := hmem c (hmodels.subset hc)
    obtain ⟨mm2, hmm2, _⟩ := hstore c mm hmm
    exact ⟨mm2, hmm2⟩
  · show List.Sorted (· ≤ ·) (World.keys w' cmp)
    unfold World.keys
    have hcong : w'.coll.models.map (w'.keyOf cmp) = w'.coll.models.map (w.keyOf cmp) :=
      List.map_congr_left (fun c hc => by
        obtain ⟨mm, hmm⟩ := hmem c (hmodels.subset hc)
        obtain ⟨mm2, hmm2, hattr⟩ := hstore c mm hmm
        rw [keyOf_eq w' cmp c mm2 hmm2, keyOf_eq w cmp c mm hmm, hattr])
    rw [hcong]
    exact List.Pairwise.sublist (List.Sublist.map _ hmodels) hsort

theorem removeOne_inv (cmp : Attrs → Int) (w : World) (r : Ref) (s : Bool)
    (hinv : C4Inv cmp w) : C4Inv cmp (World.removeOne w r s).1 := by
  unfold World.removeOne
  cases hg : World.getRef w r with
  | none =>
    dsimp only
    exact hinv
  | some cid =>
    dsimp only
    cases hm : alook w.store cid with
    | none =>
      dsimp only
      exact hinv
    | some m =>
      dsimp only
      apply C4Inv_sublist cmp w _ hinv
      · exact hinv.1
      · intro c mm hmm
        by_cases hcm : c = cid
        · subst hcm
          refine ⟨{ m with collection := false, boundAll := m.boundAll - 1 },
            alook_aset_self _ _ _, ?_⟩
          rw [hm] at hmm
          injection hmm with hmmeq
          rw [hmmeq]
        · exact ⟨mm, by rw [alook_aset_ne _ _ _ _ hcm]; exact hmm, rfl⟩
      · cases List.findIdx? (fun c => c == cid) w.coll.models with
        | some i => exact List.eraseIdx_sublist _ _
        | none => exact List.dropLast_sublist _

theorem sortColl_inv (cmp : Attrs → Int) (w : World) (s : Bool) (w' : World)
    (evs : List CEvent) (h : World.sortColl w s = Except.ok (w', evs))
    (hinv : C4Inv cmp w) : C4Inv cmp w' := by
  obtain ⟨hcmp, hmem, hsort⟩ := hinv
  unfold World.sortColl at h
  rw [hcmp] at h
  dsimp only at h
  simp only [Except.ok.injEq, Prod.mk.injEq] at h
  obtain ⟨hw, _⟩ := h
  rw [← hw]
  refine ⟨hcmp, ?_, ?_⟩
  · intro c hc
    exact hmem c ((List.perm_insertionSort _ _).subset hc)
  · have hsorted : List.Pairwise
        (fun a b => World.keyOf w cmp a ≤ World.keyOf w cmp b)
        (List.insertionSort (fun a b => World.keyOf w cmp a ≤ World.keyOf w cmp b)
          w.coll.models) := by
      letI : IsTotal Nat (fun a b => World.keyOf w cmp a ≤ World.keyOf w cmp b) :=
        ⟨fun a b => le_total _ _⟩
      letI : IsTrans Nat (fun a b => World.keyOf w cmp a ≤ World.keyOf w cmp b) :=
        ⟨fun a b c hab hbc => le_trans hab hbc⟩
      exact List.sorted_insertionSort _ _
    show List.Pairwise (· ≤ ·)
      (List.map (World.keyOf w cmp)
        (List.insertionSort (fun a b => World.keyOf w cmp a ≤ World.keyOf w cmp b)
          w.coll.models))
    rw [List.pairwise_map]
    exact hsorted

theorem reachC4_inv (cmp : Attrs → Int) (w : World) (h : ReachC4 cmp w) :
    C4Inv cmp w := by
  induction h with
  | init =>
    refine ⟨rfl, ?_, ?_⟩
    · intro c hc
      exact absurd hc (by simp)
    · exact List.sorted_nil
  | step_add h1 halias hadd ih => exact addOne_inv cmp _ _ _ _ _ halias hadd ih
  | step_remove h1 ih => exact removeOne_inv cmp _ _ _ ih
  | step_sort h1 hsort ih => exact sortColl_inv cmp _ _ _ _ hsort ih

/-- C4 (amended): with a configured comparator, after any sequence of
`insertOne`, `removeOne` and `sort` calls the member key sequence is sorted
under the comparator -- but insertion places a tied entity BEFORE the
existing equal-ranked members, not after them: the binary search of
`sortedIndex` returns the leftmost insertion point, every element strictly
before it having a strictly smaller key.  The original claim of
after-the-ties placement is refuted by the counterexample. -/
theorem C4_sorted_but_ties_first (cmp : Attrs → Int) (w : World) (h : ReachC4 cmp w) :
    List.Sorted (· ≤ ·) (w.keys cmp) ∧
    (∀ ks k i, List.Sorted (· ≤ ·) ks → i < sIndex ks k → ks.getD i 0 < k) := by
  refine ⟨(reachC4_inv cmp w h).2.2, ?_⟩
  intro ks k i hks hi
  exact (sIndex_char ks k (sorted_getD_mono ks hks)).2.1 i hi

/-- C4 witness: the amended statement at the reachable empty collection
carrying the all-ties comparator. -/
theorem C4_sorted_but_ties_first_wit :
    List.Sorted (· ≤ ·) (World.keys wC4 cmpC4) ∧
    (∀ ks k i, List.Sorted (· ≤ ·) ks → i < sIndex ks k → ks.getD i 0 < k) :=
  C4_sorted_but_ties_first cmpC4 wC4 ReachC4.init

/-- C4 counterexample: two entities tied under the comparator, inserted
first 1 then 2, end up in sequence order [2, 1] -- the newcomer sits BEFORE
the existing equal-ranked member -- refuting the claimed after-the-ties
(insertion-order-stable) placement, which demands [1, 2]. -/
theorem C4_tie_inserted_before :
    ((World.addOne wC4 e1C4 false).bind (fun x => World.addOne x.1 e2C4 false)).map
      (fun x => x.1.coll.models) = Except.ok [2, 1] ∧ ([2, 1] : List Nat) ≠ [1, 2] :=
  ⟨rfl, by decide⟩

end BB
